import Mathlib

/-!
Verification of the pricing-period overlap-resolution core
(`SortPeriods` / `ProcessPeriods` from the Go source).

Dates are modelled as integers counting days: the Go code stores
`time.Time` values at day granularity and moves them only by whole
days (`Add(±time.Hour * 24)`), and compares them with `After` /
`Equal` / `Before`, so the order-and-shift structure is exactly `Int`.
`Price` (a `float64` that is only carried, never computed with or
compared) is modelled as an opaque integer payload.
-/

/-- A row of pricing data, as scanned from the database. -/
structure Period where
  ID : Int
  PeriodStart : Int
  PeriodEnd : Int
  Price : Int
  ProdNum : Int
  PeriodPriority : Int
deriving DecidableEq

def defaultPeriod : Period :=
  { ID := 0, PeriodStart := 0, PeriodEnd := 0, Price := 0, ProdNum := 0, PeriodPriority := 0 }

/-- The comparator passed to `sort.Slice` by `SortPeriods`: product
number ascending, then start date ascending, then priority ascending,
and `true` on a full tie (translated branch by branch from the Go
closure). -/
def leKey (a b : Period) : Prop :=
  if a.ProdNum ≠ b.ProdNum then a.ProdNum < b.ProdNum
  else if a.PeriodStart ≠ b.PeriodStart then a.PeriodStart < b.PeriodStart
  else if a.PeriodPriority ≠ b.PeriodPriority then a.PeriodPriority < b.PeriodPriority
  else True

instance : DecidableRel leKey := fun a b => by
  unfold leKey; infer_instance

theorem leKey_iff (a b : Period) :
    leKey a b ↔ (a.ProdNum < b.ProdNum ∨
      (a.ProdNum = b.ProdNum ∧ (a.PeriodStart < b.PeriodStart ∨
        (a.PeriodStart = b.PeriodStart ∧ a.PeriodPriority ≤ b.PeriodPriority)))) := by
  unfold leKey
  split_ifs <;> constructor <;> intro h <;> first | trivial | omega

instance : IsTotal Period leKey :=
  ⟨fun a b => by rw [leKey_iff, leKey_iff]; omega⟩

instance : IsTrans Period leKey :=
  ⟨fun a b c hab hbc => by rw [leKey_iff] at *; omega⟩

/-- `SortPeriods` sorts the slice with the three-key comparator.  Go's
`sort.Slice` is not stable and leaves full-key ties in arbitrary
order; we determinise with a stable insertion sort, which realises the
same comparator. -/
def SortPeriods (l : List Period) : List Period :=
  List.insertionSort leKey l

/-- Index of the first adjacent pair with
`current.PeriodEnd.After(next.PeriodStart)` — the scan the mutation
loop performs from `i = 0` after every restart. -/
def findOverlapIdx : List Period → Option Nat
  | c :: n :: rest =>
      if n.PeriodStart < c.PeriodEnd then some 0
      else (findOverlapIdx (n :: rest)).map (· + 1)
  | _ => none

/-- The `current.PeriodPriority > next.PeriodPriority` branch: current
is weaker.  If current also outlives next, append a fragment starting
the day after next ends and trim current to end the day before next
starts (the SPLIT case); otherwise just trim current. -/
def currentLoses (l : List Period) (i : Nat) : List Period :=
  let c := l.getD i defaultPeriod
  let n := l.getD (i + 1) defaultPeriod
  if n.PeriodEnd < c.PeriodEnd then
    (l.set i { c with PeriodEnd := n.PeriodStart - 1 }) ++
      [{ c with PeriodStart := n.PeriodEnd + 1 }]
  else
    l.set i { c with PeriodEnd := n.PeriodStart - 1 }

/-- The else-branch: current wins (equal or stronger priority).  If
current ends on or after next's end, delete next by overwriting it
with the last element and truncating; otherwise move next's start to
the day after current ends. -/
def currentWins (l : List Period) (i : Nat) : List Period :=
  let c := l.getD i defaultPeriod
  let n := l.getD (i + 1) defaultPeriod
  if n.PeriodEnd ≤ c.PeriodEnd then
    match l.getLast? with
    | some last => (l.set (i + 1) last).dropLast
    | none => l
  else
    l.set (i + 1) { n with PeriodStart := c.PeriodEnd + 1 }

/-- One overlap resolution at index `i`, exactly the nested `if` of the
Go loop body. -/
def resolveAt (l : List Period) (i : Nat) : List Period :=
  let c := l.getD i defaultPeriod
  let n := l.getD (i + 1) defaultPeriod
  if n.PeriodPriority < c.PeriodPriority then currentLoses l i
  else currentWins l i

/-- One round of the restart loop: scan from the top for the first
overlapping adjacent pair; if found, resolve it and re-sort (the Go
code then resets `i = 0`); if none, the loop exits. -/
def stepFn (l : List Period) : Option (List Period) :=
  match findOverlapIdx l with
  | none => none
  | some i => some (SortPeriods (resolveAt l i))

/-- Iterate `stepFn` at most `n` rounds, stopping at a fixpoint. -/
def iterSteps : Nat → List Period → List Period
  | 0, l => l
  | n + 1, l =>
      match stepFn l with
      | none => l
      | some l2 => iterSteps n l2

/-- Denotation of `ProcessPeriods input`: the Go function first sorts,
then runs the restart loop to completion; it returns `output` exactly
when some finite number of rounds reaches `output` and a full pass over
`output` finds no overlapping adjacent pair.  (The `debugMode`
parameter only controls printing and is dropped.)  On inputs where the
loop never reaches a mutation-free pass, no `output` is related. -/
def ProcessPeriods (input output : List Period) : Prop :=
  ∃ n, iterSteps n (SortPeriods input) = output ∧ stepFn output = none

/-- Caller contract stated by the spec: every period has
`start <= end`. -/
def validInput (l : List Period) : Prop :=
  ∀ p ∈ l, p.PeriodStart ≤ p.PeriodEnd

/-- Day `d` lies in the inclusive date interval of `p`. -/
def coversDay (p : Period) (d : Int) : Prop :=
  p.PeriodStart ≤ d ∧ d ≤ p.PeriodEnd

instance (l : List Period) : Decidable (validInput l) := by
  unfold validInput; infer_instance

instance (p : Period) (d : Int) : Decidable (coversDay p d) := by
  unfold coversDay; infer_instance

/-! ## Generic facts about the iteration -/

theorem iterSteps_of_none {l : List Period} (h : stepFn l = none) :
    ∀ n, iterSteps n l = l := by
  intro n
  cases n with
  | zero => rfl
  | succ n => simp [iterSteps, h]

theorem iterSteps_add (m n : Nat) (l : List Period) :
    iterSteps (m + n) l = iterSteps n (iterSteps m l) := by
  induction m generalizing l with
  | zero => simp [iterSteps]
  | succ m ih =>
      cases h : stepFn l with
      | none =>
          have hm : m + 1 + n = (m + n) + 1 := by omega
          rw [hm]
          simp [iterSteps, h, iterSteps_of_none h]
      | some l2 =>
          have hm : m + 1 + n = (m + n) + 1 := by omega
          rw [hm]
          simp only [iterSteps, h]
          exact ih l2

theorem processPeriods_unique {l a b : List Period}
    (ha : ProcessPeriods l a) (hb : ProcessPeriods l b) : a = b := by
  obtain ⟨n, hna, hfa⟩ := ha
  obtain ⟨m, hmb, hfb⟩ := hb
  rcases Nat.le_total n m with h | h
  · obtain ⟨k, hk⟩ := Nat.le.dest h
    rw [← hk, iterSteps_add, hna, iterSteps_of_none hfa] at hmb
    exact hmb
  · obtain ⟨k, hk⟩ := Nat.le.dest h
    rw [← hk, iterSteps_add, hmb, iterSteps_of_none hfb] at hna
    exact hna.symm

theorem stepFn_some_rep {l l2 : List Period} (h : stepFn l = some l2) :
    ∃ m, l2 = SortPeriods m := by
  unfold stepFn at h
  cases hf : findOverlapIdx l with
  | none => rw [hf] at h; exact absurd h (by simp)
  | some i =>
      rw [hf] at h
      exact ⟨resolveAt l i, by injection h with h2; exact h2.symm⟩

theorem iterSteps_sorted (n : Nat) (l : List Period) :
    List.Sorted leKey (iterSteps n (SortPeriods l)) := by
  induction n generalizing l with
  | zero => exact List.sorted_insertionSort leKey l
  | succ n ih =>
      cases h : stepFn (SortPeriods l) with
      | none =>
          simp only [iterSteps, h]
          exact List.sorted_insertionSort leKey l
      | some l2 =>
          obtain ⟨m, hm⟩ := stepFn_some_rep h
          simp only [iterSteps, h, hm]
          exact ih m

theorem processPeriods_sorted {l out : List Period}
    (h : ProcessPeriods l out) : List.Sorted leKey out := by
  obtain ⟨n, hn, _⟩ := h
  rw [← hn]
  exact iterSteps_sorted n l

theorem processPeriods_fix {l out : List Period}
    (h : ProcessPeriods l out) : findOverlapIdx out = none := by
  obtain ⟨n, _, hf⟩ := h
  unfold stepFn at hf
  cases hfo : findOverlapIdx out with
  | none => rfl
  | some i => rw [hfo] at hf; exact absurd hf (by simp)

theorem findOverlapIdx_none_adj (l : List Period) :
    findOverlapIdx l = none →
    ∀ i, i + 1 < l.length →
      (l.getD i defaultPeriod).PeriodEnd ≤ (l.getD (i + 1) defaultPeriod).PeriodStart := by
  induction l with
  | nil => intro _ i hi; simp at hi
  | cons c rest ih =>
      intro h i hi
      cases rest with
      | nil => simp at hi
      | cons n rest2 =>
          have hc : ¬ n.PeriodStart < c.PeriodEnd := by
            intro hlt
            simp [findOverlapIdx, hlt] at h
          have hrec : findOverlapIdx (n :: rest2) = none := by
            unfold findOverlapIdx at h
            rw [if_neg hc] at h
            exact Option.map_eq_none'.mp h
          cases i with
          | zero =>
              simp only [List.getD_cons_zero, List.getD_cons_succ]
              omega
          | succ i =>
              have hi2 : i + 1 < (n :: rest2).length := by
                simpa using hi
              simpa only [List.getD_cons_succ] using ih hrec i hi2

theorem sorted_getD_le {l : List Period} (h : List.Sorted leKey l)
    {i j : Nat} (hij : i < j) (hj : j < l.length) :
    leKey (l.getD i defaultPeriod) (l.getD j defaultPeriod) := by
  have hi : i < l.length := lt_trans hij hj
  rw [List.getD_eq_getElem _ _ hi, List.getD_eq_getElem _ _ hj]
  exact List.pairwise_iff_getElem.mp h i j hi hj hij

/-! ## Claim C9: the ordering contract of SortPeriods -/

/-- Claim C9: `SortPeriods` arranges any collection of periods into a
deterministic total order keyed by product key ascending, then start
date ascending, then priority ascending; after sorting, every pair of
elements at positions `i < j` is non-decreasing under the three-key
comparison, and the result is a permutation of the input. -/
theorem claim9_sort_order (l : List Period) :
    List.Pairwise leKey (SortPeriods l) ∧ (SortPeriods l).Perm l :=
  ⟨List.sorted_insertionSort leKey l, List.perm_insertionSort leKey l⟩

/-! ## Claim C10: a pair sharing exactly one boundary day survives -/

def pA10 : Period :=
  { ID := 1, PeriodStart := 1, PeriodEnd := 5, Price := 10, ProdNum := 7, PeriodPriority := 1 }

def pB10 : Period :=
  { ID := 2, PeriodStart := 5, PeriodEnd := 10, Price := 20, ProdNum := 7, PeriodPriority := 2 }

/-- Claim C10: two same-product periods whose intervals intersect in
exactly one day — the first ends on the day the second starts — are
not treated as overlapping by the strict `After` test, so
`ProcessPeriods` performs no mutation and returns both unchanged. -/
theorem claim10_boundary_pair_survives :
    validInput [pA10, pB10] ∧
    pA10.ProdNum = pB10.ProdNum ∧
    pA10.PeriodStart ≤ pA10.PeriodEnd ∧
    pA10.PeriodEnd = pB10.PeriodStart ∧
    coversDay pA10 5 ∧ coversDay pB10 5 ∧
    stepFn (SortPeriods [pA10, pB10]) = none ∧
    ProcessPeriods [pA10, pB10] [pA10, pB10] :=
  ⟨by decide, by decide, by decide, by decide, by decide, by decide, by decide,
    ⟨0, by decide, by decide⟩⟩

/-! ## Claim C7: termination fails — a reachable three-state cycle -/

def lc7 : List Period :=
  [ { ID := 0, PeriodStart := 0, PeriodEnd := 0, Price := 10, ProdNum := 2, PeriodPriority := 1 },
    { ID := 1, PeriodStart := 0, PeriodEnd := 2, Price := 20, ProdNum := 1, PeriodPriority := 1 },
    { ID := 2, PeriodStart := 3, PeriodEnd := 4, Price := 30, ProdNum := 1, PeriodPriority := 2 } ]

theorem c7_iter_mod (n : Nat) :
    iterSteps n (SortPeriods lc7) = iterSteps (n % 3) (SortPeriods lc7) := by
  induction n using Nat.strong_induction_on with
  | _ n ih =>
      rcases Nat.lt_or_ge n 3 with h | h
      · rw [Nat.mod_eq_of_lt h]
      · have hn : n = 3 + (n - 3) := by omega
        have hcyc : iterSteps 3 (SortPeriods lc7) = SortPeriods lc7 := by decide
        have hlt : n - 3 < n := by omega
        have hmod : (n - 3) % 3 = n % 3 := by omega
        calc iterSteps n (SortPeriods lc7)
            = iterSteps (3 + (n - 3)) (SortPeriods lc7) := by rw [← hn]
          _ = iterSteps (n - 3) (iterSteps 3 (SortPeriods lc7)) := iterSteps_add _ _ _
          _ = iterSteps (n - 3) (SortPeriods lc7) := by rw [hcyc]
          _ = iterSteps ((n - 3) % 3) (SortPeriods lc7) := ih (n - 3) hlt
          _ = iterSteps (n % 3) (SortPeriods lc7) := by rw [hmod]

/-- Claim C7: the claim says `ProcessPeriods` terminates on every input
whose periods all satisfy `start <= end`.  The code refutes it: on the
valid three-period input `lc7` (two products whose calendar spans
overlap), the restart loop enters a three-state cycle — the scan finds
an overlapping adjacent pair in every round, forever, so the pass with
zero mutations is never reached. -/
theorem claim7_nontermination :
    validInput lc7 ∧
    iterSteps 3 (SortPeriods lc7) = SortPeriods lc7 ∧
    ∀ n, (stepFn (iterSteps n (SortPeriods lc7))).isSome = true := by
  refine ⟨by decide, by decide, fun n => ?_⟩
  rw [c7_iter_mod]
  have h3 : n % 3 = 0 ∨ n % 3 = 1 ∨ n % 3 = 2 := by omega
  rcases h3 with h | h | h <;> rw [h] <;> decide

/-! ## Claim C6: products are not resolved independently -/

def pP1c6 : Period :=
  { ID := 1, PeriodStart := 0, PeriodEnd := 10, Price := 5, ProdNum := 1, PeriodPriority := 1 }

def pP2c6 : Period :=
  { ID := 2, PeriodStart := 0, PeriodEnd := 10, Price := 6, ProdNum := 2, PeriodPriority := 1 }

/-- Claim C6: the overlap test `current.PeriodEnd.After
(next.PeriodStart)` never compares product keys, so two periods of
different products whose calendar intervals overlap interact: on the
valid input `[pP1c6, pP2c6]` (same dates, products 1 and 2),
`ProcessPeriods` of the whole collection deletes product 2's period,
while processing each product-key group separately leaves both groups
unchanged — the combined output (one period) is not the concatenation
of the per-group outputs (two periods), as multisets or otherwise. -/
theorem claim6_cross_product_interaction :
    validInput [pP1c6, pP2c6] ∧
    ProcessPeriods [pP1c6, pP2c6] [pP1c6] ∧
    ProcessPeriods [pP1c6] [pP1c6] ∧
    ProcessPeriods [pP2c6] [pP2c6] ∧
    ([pP1c6] : List Period).length = 1 ∧
    (([pP1c6] : List Period) ++ [pP2c6]).length = 2 ∧
    List.count pP2c6 [pP1c6] = 0 ∧
    List.count pP2c6 (([pP1c6] : List Period) ++ [pP2c6]) = 1 :=
  ⟨by decide, ⟨1, by decide, by decide⟩, ⟨0, by decide, by decide⟩,
    ⟨0, by decide, by decide⟩, by decide, by decide, by decide, by decide⟩

/-! ## Claim C1: the non-overlap invariant of the output -/

def pA1 : Period :=
  { ID := 1, PeriodStart := 1, PeriodEnd := 5, Price := 11, ProdNum := 3, PeriodPriority := 1 }

def pB1 : Period :=
  { ID := 2, PeriodStart := 5, PeriodEnd := 10, Price := 12, ProdNum := 3, PeriodPriority := 2 }

/-- Claim C1 counterexample: the claim says no two same-product output
periods share any day.  On the valid input `[pA1, pB1]` the two periods
intersect in exactly day 5 (the first ends on the day the second
starts); the strict overlap test does not fire, `ProcessPeriods`
returns both unchanged, and the two same-product output periods both
cover day 5. -/
theorem claim1_counterexample :
    validInput [pA1, pB1] ∧
    ProcessPeriods [pA1, pB1] [pA1, pB1] ∧
    pA1.ProdNum = pB1.ProdNum ∧
    coversDay pA1 5 ∧ coversDay pB1 5 :=
  ⟨by decide, ⟨0, by decide, by decide⟩, by decide, by decide, by decide⟩

/-- Claim C1 (amended): in any output of `ProcessPeriods`, for two
periods of the same product at positions `i < j`, the earlier period
ends no later than the later one starts; hence their inclusive
intervals share at most the single boundary day at which the earlier
period's end equals the later period's start. -/
theorem claim1_amended (l out : List Period) (_hv : validInput l)
    (h : ProcessPeriods l out) (i j : Nat) (hij : i < j) (hj : j < out.length)
    (hprod : (out.getD i defaultPeriod).ProdNum = (out.getD j defaultPeriod).ProdNum) :
    (out.getD i defaultPeriod).PeriodEnd ≤ (out.getD j defaultPeriod).PeriodStart ∧
    ∀ d : Int, coversDay (out.getD i defaultPeriod) d →
      coversDay (out.getD j defaultPeriod) d →
      d = (out.getD i defaultPeriod).PeriodEnd ∧
      d = (out.getD j defaultPeriod).PeriodStart := by
  have hsorted := processPeriods_sorted h
  have hfix := processPeriods_fix h
  have hlen1 : i + 1 < out.length := by omega
  have hadj := findOverlapIdx_none_adj out hfix i hlen1
  have hmain : (out.getD i defaultPeriod).PeriodEnd ≤ (out.getD j defaultPeriod).PeriodStart := by
    rcases Nat.lt_or_ge (i + 1) j with hj1 | hj1
    · have h1 := sorted_getD_le hsorted (show i < i + 1 by omega) hlen1
      have h2 := sorted_getD_le hsorted hj1 hj
      rw [leKey_iff] at h1 h2
      omega
    · have hij' : i + 1 = j := by omega
      rw [hij'] at hadj
      exact hadj
  refine ⟨hmain, fun d hdi hdj => ?_⟩
  unfold coversDay at hdi hdj
  omega

/-- Claim C1 amended witness: on the concrete run of
`claim1_counterexample`'s input, the amended bound holds with equality:
the earlier period ends exactly on the day the later one starts. -/
theorem claim1_amended_witness :
    ([pA1, pB1].getD 0 defaultPeriod).PeriodEnd ≤
      ([pA1, pB1].getD 1 defaultPeriod).PeriodStart :=
  (claim1_amended [pA1, pB1] [pA1, pB1] (by decide) ⟨0, by decide, by decide⟩
    0 1 (by decide) (by decide) (by decide)).1

/-! ## Claim C8: idempotence -/

/-- Claim C8: re-running `ProcessPeriods` on its own output returns
that output unchanged: the output is sorted and overlap-free, so the
initial re-sort is the identity and the first pass finds no
overlapping pair. -/
theorem claim8_idempotent (l out : List Period) (_hv : validInput l)
    (h : ProcessPeriods l out) :
    ProcessPeriods out out ∧ ∀ out2, ProcessPeriods out out2 → out2 = out := by
  have hsorted := processPeriods_sorted h
  obtain ⟨n, hn, hfixp⟩ := h
  have hsort_eq : SortPeriods out = out := List.Sorted.insertionSort_eq hsorted
  have hself : ProcessPeriods out out := ⟨0, by rw [iterSteps, hsort_eq], hfixp⟩
  exact ⟨hself, fun out2 h2 => processPeriods_unique h2 hself⟩

def pA8 : Period :=
  { ID := 1, PeriodStart := 1, PeriodEnd := 5, Price := 13, ProdNum := 4, PeriodPriority := 1 }

def pB8 : Period :=
  { ID := 2, PeriodStart := 7, PeriodEnd := 10, Price := 14, ProdNum := 4, PeriodPriority := 2 }

/-- Claim C8 witness: concrete instantiation on a disjoint valid pair. -/
theorem claim8_idempotent_witness :
    ProcessPeriods [pA8, pB8] [pA8, pB8] :=
  (claim8_idempotent [pA8, pB8] [pA8, pB8] (by decide) ⟨0, by decide, by decide⟩).1

/-! ## Helpers for symbolic evaluation of single resolution rounds -/

theorem sortPeriods_pair_left {x y : Period} (h : leKey x y) :
    SortPeriods [x, y] = [x, y] := by
  simp [SortPeriods, List.insertionSort, List.orderedInsert, h]

theorem sortPeriods_pair_swap {x y : Period} (h : ¬ leKey y x) :
    SortPeriods [y, x] = [x, y] := by
  simp [SortPeriods, List.insertionSort, List.orderedInsert, h]

theorem findOverlapIdx_cons₂_some {x y : Period} (rest : List Period)
    (h : y.PeriodStart < x.PeriodEnd) : findOverlapIdx (x :: y :: rest) = some 0 := by
  simp [findOverlapIdx, h]

theorem findOverlapIdx_pair_none {x y : Period} (h : ¬ y.PeriodStart < x.PeriodEnd) :
    findOverlapIdx [x, y] = none := by
  simp [findOverlapIdx, h]

theorem findOverlapIdx_triple_none {x y z : Period}
    (h1 : ¬ y.PeriodStart < x.PeriodEnd) (h2 : ¬ z.PeriodStart < y.PeriodEnd) :
    findOverlapIdx [x, y, z] = none := by
  simp [findOverlapIdx, h1, h2]

theorem resolveAt_pair_split {x y : Period}
    (hpri : y.PeriodPriority < x.PeriodPriority) (hend : y.PeriodEnd < x.PeriodEnd) :
    resolveAt [x, y] 0 =
      [{ x with PeriodEnd := y.PeriodStart - 1 }, y,
        { x with PeriodStart := y.PeriodEnd + 1 }] := by
  simp [resolveAt, currentLoses, hpri, hend]

theorem resolveAt_pair_trim_current {x y : Period}
    (hpri : y.PeriodPriority < x.PeriodPriority) (hend : ¬ y.PeriodEnd < x.PeriodEnd) :
    resolveAt [x, y] 0 = [{ x with PeriodEnd := y.PeriodStart - 1 }, y] := by
  simp [resolveAt, currentLoses, hpri, hend]

theorem resolveAt_pair_delete {x y : Period}
    (hpri : ¬ y.PeriodPriority < x.PeriodPriority) (hend : y.PeriodEnd ≤ x.PeriodEnd) :
    resolveAt [x, y] 0 = [x] := by
  simp [resolveAt, currentWins, hpri, hend, List.getLast?]

theorem resolveAt_pair_trim_next {x y : Period}
    (hpri : ¬ y.PeriodPriority < x.PeriodPriority) (hend : ¬ y.PeriodEnd ≤ x.PeriodEnd) :
    resolveAt [x, y] 0 = [x, { y with PeriodStart := x.PeriodEnd + 1 }] := by
  simp [resolveAt, currentWins, hpri, hend]

theorem iterSteps_one_of_some {l l2 : List Period} (h : stepFn l = some l2) :
    iterSteps 1 l = l2 := by
  simp [iterSteps, h]

/-! ## Complete two-period runs, by final mutation case -/

theorem pp_pair_delete {x y : Period} (l : List Period)
    (hxy : leKey x y) (hyx : ¬ leKey y x)
    (hov : y.PeriodStart < x.PeriodEnd)
    (hpri : ¬ y.PeriodPriority < x.PeriodPriority)
    (hend : y.PeriodEnd ≤ x.PeriodEnd)
    (hl : l = [x, y] ∨ l = [y, x]) :
    ProcessPeriods l [x] := by
  have hsort : SortPeriods l = [x, y] := by
    rcases hl with rfl | rfl
    · exact sortPeriods_pair_left hxy
    · exact sortPeriods_pair_swap hyx
  have hstep : stepFn [x, y] = some (SortPeriods (resolveAt [x, y] 0)) := by
    unfold stepFn
    rw [findOverlapIdx_cons₂_some [] hov]
  rw [resolveAt_pair_delete hpri hend] at hstep
  have h1 : SortPeriods [x] = [x] := by simp [SortPeriods]
  rw [h1] at hstep
  exact ⟨1, by rw [hsort]; exact iterSteps_one_of_some hstep,
    by simp [stepFn, findOverlapIdx]⟩

theorem pp_pair_trim_next {x y : Period} (l : List Period)
    (hxy : leKey x y) (hyx : ¬ leKey y x)
    (hvx : x.PeriodStart ≤ x.PeriodEnd)
    (hov : y.PeriodStart < x.PeriodEnd)
    (hpri : ¬ y.PeriodPriority < x.PeriodPriority)
    (hend : ¬ y.PeriodEnd ≤ x.PeriodEnd)
    (hl : l = [x, y] ∨ l = [y, x]) :
    ProcessPeriods l [x, { y with PeriodStart := x.PeriodEnd + 1 }] := by
  have hsort : SortPeriods l = [x, y] := by
    rcases hl with rfl | rfl
    · exact sortPeriods_pair_left hxy
    · exact sortPeriods_pair_swap hyx
  have hstep : stepFn [x, y] = some (SortPeriods (resolveAt [x, y] 0)) := by
    unfold stepFn
    rw [findOverlapIdx_cons₂_some [] hov]
  rw [resolveAt_pair_trim_next hpri hend] at hstep
  rw [leKey_iff] at hxy
  have h1 : SortPeriods [x, { y with PeriodStart := x.PeriodEnd + 1 }] =
      [x, { y with PeriodStart := x.PeriodEnd + 1 }] :=
    sortPeriods_pair_left (by rw [leKey_iff]; dsimp only; omega)
  rw [h1] at hstep
  refine ⟨1, by rw [hsort]; exact iterSteps_one_of_some hstep, ?_⟩
  unfold stepFn
  rw [findOverlapIdx_pair_none (by dsimp only; omega)]

theorem pp_pair_trim_current {x y : Period} (l : List Period)
    (hprod : x.ProdNum = y.ProdNum)
    (hxs : x.PeriodStart < y.PeriodStart)
    (hov : y.PeriodStart < x.PeriodEnd)
    (hpri : y.PeriodPriority < x.PeriodPriority)
    (hend : ¬ y.PeriodEnd < x.PeriodEnd)
    (hl : l = [x, y] ∨ l = [y, x]) :
    ProcessPeriods l [{ x with PeriodEnd := y.PeriodStart - 1 }, y] := by
  have hxy : leKey x y := by rw [leKey_iff]; omega
  have hyx : ¬ leKey y x := by rw [leKey_iff]; omega
  have hsort : SortPeriods l = [x, y] := by
    rcases hl with rfl | rfl
    · exact sortPeriods_pair_left hxy
    · exact sortPeriods_pair_swap hyx
  have hstep : stepFn [x, y] = some (SortPeriods (resolveAt [x, y] 0)) := by
    unfold stepFn
    rw [findOverlapIdx_cons₂_some [] hov]
  rw [resolveAt_pair_trim_current hpri hend] at hstep
  have h1 : SortPeriods [{ x with PeriodEnd := y.PeriodStart - 1 }, y] =
      [{ x with PeriodEnd := y.PeriodStart - 1 }, y] :=
    sortPeriods_pair_left (by rw [leKey_iff]; dsimp only; omega)
  rw [h1] at hstep
  refine ⟨1, by rw [hsort]; exact iterSteps_one_of_some hstep, ?_⟩
  unfold stepFn
  rw [findOverlapIdx_pair_none (by dsimp only; omega)]

theorem pp_pair_split {x y : Period} (l : List Period)
    (hprod : x.ProdNum = y.ProdNum)
    (hxs : x.PeriodStart < y.PeriodStart)
    (hvy : y.PeriodStart ≤ y.PeriodEnd)
    (hov : y.PeriodStart < x.PeriodEnd)
    (hpri : y.PeriodPriority < x.PeriodPriority)
    (hend : y.PeriodEnd < x.PeriodEnd)
    (hl : l = [x, y] ∨ l = [y, x]) :
    ProcessPeriods l
      [{ x with PeriodEnd := y.PeriodStart - 1 }, y,
        { x with PeriodStart := y.PeriodEnd + 1 }] := by
  have hxy : leKey x y := by rw [leKey_iff]; omega
  have hyx : ¬ leKey y x := by rw [leKey_iff]; omega
  have hsort : SortPeriods l = [x, y] := by
    rcases hl with rfl | rfl
    · exact sortPeriods_pair_left hxy
    · exact sortPeriods_pair_swap hyx
  have hstep : stepFn [x, y] = some (SortPeriods (resolveAt [x, y] 0)) := by
    unfold stepFn
    rw [findOverlapIdx_cons₂_some [] hov]
  rw [resolveAt_pair_split hpri hend] at hstep
  have k1 : leKey { x with PeriodEnd := y.PeriodStart - 1 } y := by
    rw [leKey_iff]; dsimp only; omega
  have k2 : leKey { x with PeriodEnd := y.PeriodStart - 1 }
      { x with PeriodStart := y.PeriodEnd + 1 } := by
    rw [leKey_iff]; dsimp only; omega
  have k3 : leKey y { x with PeriodStart := y.PeriodEnd + 1 } := by
    rw [leKey_iff]; dsimp only; omega
  have hsorted3 : List.Sorted leKey
      [{ x with PeriodEnd := y.PeriodStart - 1 }, y,
        { x with PeriodStart := y.PeriodEnd + 1 }] := by
    simp [List.sorted_cons, k1, k2, k3]
  have h1 := List.Sorted.insertionSort_eq hsorted3
  have h2 : SortPeriods [{ x with PeriodEnd := y.PeriodStart - 1 }, y,
      { x with PeriodStart := y.PeriodEnd + 1 }] =
      [{ x with PeriodEnd := y.PeriodStart - 1 }, y,
        { x with PeriodStart := y.PeriodEnd + 1 }] := h1
  rw [h2] at hstep
  refine ⟨1, by rw [hsort]; exact iterSteps_one_of_some hstep, ?_⟩
  unfold stepFn
  rw [findOverlapIdx_triple_none (by dsimp only; omega) (by dsimp only; omega)]

/-! ## Claim C3: split of a weaker period strictly containing a stronger one -/

def pC3 : Period :=
  { ID := 3, PeriodStart := 0, PeriodEnd := 100, Price := 30, ProdNum := 7, PeriodPriority := 0 }

def pW3 : Period :=
  { ID := 1, PeriodStart := 1, PeriodEnd := 31, Price := 10, ProdNum := 7, PeriodPriority := 2 }

def pS3 : Period :=
  { ID := 2, PeriodStart := 10, PeriodEnd := 20, Price := 20, ProdNum := 7, PeriodPriority := 1 }

/-- Claim C3 counterexample: the claim quantifies over every input in
which a weaker period strictly contains a stronger same-product one.
The valid input `[pC3, pW3, pS3]` contains such a pair (`pW3` weaker,
`pS3` stronger), but a third, strongest period `pC3` covers both, so
the output is `[pC3]` alone — it contains no fragment of `pW3` at all,
not the two that the claim requires. -/
theorem claim3_counterexample :
    validInput [pC3, pW3, pS3] ∧
    pW3.ProdNum = pS3.ProdNum ∧
    pS3.PeriodPriority < pW3.PeriodPriority ∧
    pW3.PeriodStart < pS3.PeriodStart ∧
    pS3.PeriodEnd < pW3.PeriodEnd ∧
    ProcessPeriods [pC3, pW3, pS3] [pC3] ∧
    List.all [pC3] (fun p => p.ID != pW3.ID) = true :=
  ⟨by decide, by decide, by decide, by decide, by decide,
    ⟨2, by decide, by decide⟩, by decide⟩

/-- Claim C3 (amended): for an input consisting of exactly the two
periods — a weaker period `W` strictly containing a stronger
same-product period `S` — the output is exactly the two fragments of
`W` (ending the day before `S` starts, and starting the day after `S`
ends), each retaining `W`'s identifier, price and priority, with `S`
unchanged between them. -/
theorem claim3_amended (W S : Period) (l : List Period)
    (hprod : W.ProdNum = S.ProdNum)
    (hpri : S.PeriodPriority < W.PeriodPriority)
    (hc1 : W.PeriodStart < S.PeriodStart)
    (hc2 : S.PeriodEnd < W.PeriodEnd)
    (hvS : S.PeriodStart ≤ S.PeriodEnd)
    (hl : l = [W, S] ∨ l = [S, W]) :
    ProcessPeriods l
      [{ W with PeriodEnd := S.PeriodStart - 1 }, S,
        { W with PeriodStart := S.PeriodEnd + 1 }] :=
  pp_pair_split l hprod hc1 hvS (by omega) hpri hc2 hl

/-- Claim C3 witness: the spec's scenario 2 — A(priority 2, days
1..31) and B(priority 1, days 10..20) — yields A split into days 1..9
and 21..31, both priority 2, with B unchanged. -/
theorem claim3_amended_witness :
    ProcessPeriods [pW3, pS3]
      [{ pW3 with PeriodEnd := pS3.PeriodStart - 1 }, pS3,
        { pW3 with PeriodStart := pS3.PeriodEnd + 1 }] ∧
    ([{ pW3 with PeriodEnd := pS3.PeriodStart - 1 }, pS3,
        { pW3 with PeriodStart := pS3.PeriodEnd + 1 }] : List Period) =
      [{ ID := 1, PeriodStart := 1, PeriodEnd := 9, Price := 10, ProdNum := 7,
          PeriodPriority := 2 },
        pS3,
        { ID := 1, PeriodStart := 21, PeriodEnd := 31, Price := 10, ProdNum := 7,
          PeriodPriority := 2 }] :=
  ⟨claim3_amended pW3 pS3 [pW3, pS3] (by decide) (by decide) (by decide) (by decide)
      (by decide) (Or.inl rfl),
    by decide⟩

/-! ## Claim C4: containment removal -/

def pA4 : Period :=
  { ID := 1, PeriodStart := 1, PeriodEnd := 31, Price := 10, ProdNum := 7, PeriodPriority := 1 }

def pB4 : Period :=
  { ID := 2, PeriodStart := 10, PeriodEnd := 20, Price := 20, ProdNum := 7, PeriodPriority := 2 }

def pA4c : Period :=
  { ID := 1, PeriodStart := 1, PeriodEnd := 5, Price := 10, ProdNum := 7, PeriodPriority := 1 }

def pB4c : Period :=
  { ID := 2, PeriodStart := 5, PeriodEnd := 5, Price := 20, ProdNum := 7, PeriodPriority := 2 }

/-- Claim C4 counterexample: the claim quantifies over every input in
which a stronger period's interval fully contains a weaker one's.  On
the valid input `[pA4c, pB4c]`, the stronger `pA4c` (days 1..5)
contains the weaker `pB4c` (day 5..5), but the strict overlap test
`current.PeriodEnd.After(next.PeriodStart)` compares 5 with 5 and does
not fire, so no mutation happens and the weaker period is present in
the output rather than absent. -/
theorem claim4_counterexample :
    validInput [pA4c, pB4c] ∧
    pA4c.ProdNum = pB4c.ProdNum ∧
    pA4c.PeriodPriority < pB4c.PeriodPriority ∧
    pA4c.PeriodStart ≤ pB4c.PeriodStart ∧
    pB4c.PeriodEnd ≤ pA4c.PeriodEnd ∧
    ProcessPeriods [pA4c, pB4c] [pA4c, pB4c] ∧
    pB4c ∈ ([pA4c, pB4c] : List Period) :=
  ⟨by decide, by decide, by decide, by decide, by decide,
    ⟨0, by decide, by decide⟩, by decide⟩

/-- Claim C4 (amended): for an input consisting of exactly the two
periods — a stronger `A` whose interval contains a weaker same-product
`B`'s — and whose overlap is more than a shared endpoint
(`B.PeriodStart < A.PeriodEnd`, which is what the strict `After` test
requires to fire), the output is exactly `[A]`: the weaker period is
deleted and the stronger one is unchanged. -/
theorem claim4_amended (A B : Period) (l : List Period)
    (hprod : A.ProdNum = B.ProdNum)
    (hpri : A.PeriodPriority < B.PeriodPriority)
    (hc1 : A.PeriodStart ≤ B.PeriodStart)
    (hc2 : B.PeriodEnd ≤ A.PeriodEnd)
    (hov : B.PeriodStart < A.PeriodEnd)
    (hl : l = [A, B] ∨ l = [B, A]) :
    ProcessPeriods l [A] :=
  pp_pair_delete l (by rw [leKey_iff]; omega) (by rw [leKey_iff]; omega)
    hov (by omega) hc2 hl

/-- Claim C4 witness: the spec's scenario 1 — A(priority 1, days
1..31) and B(priority 2, days 10..20) — yields A unchanged and B
absent. -/
theorem claim4_amended_witness :
    ProcessPeriods [pA4, pB4] [pA4] :=
  claim4_amended pA4 pB4 [pA4, pB4] (by decide) (by decide) (by decide) (by decide)
    (by decide) (Or.inl rfl)

/-! ## Claim C5: equal priority — current wins -/

def pA5 : Period :=
  { ID := 1, PeriodStart := 1, PeriodEnd := 10, Price := 10, ProdNum := 7, PeriodPriority := 1 }

def pB5 : Period :=
  { ID := 2, PeriodStart := 5, PeriodEnd := 20, Price := 20, ProdNum := 7, PeriodPriority := 1 }

/-- Claim C5: the resolution step takes the current-loses branch
exactly when `current.PeriodPriority > next.PeriodPriority` is strict;
with `current.PeriodPriority <= next.PeriodPriority` (equal priority
included) it takes the current-wins branch.  On the spec's scenario 4
— A(priority 1, days 1..10) and B(priority 1, days 5..20), a tie — A
is kept unchanged and B is trimmed to start on day 11. -/
theorem claim5_tie_current_wins :
    (∀ (l : List Period) (i : Nat),
      (l.getD (i + 1) defaultPeriod).PeriodPriority <
          (l.getD i defaultPeriod).PeriodPriority →
        resolveAt l i = currentLoses l i) ∧
    (∀ (l : List Period) (i : Nat),
      (l.getD i defaultPeriod).PeriodPriority ≤
          (l.getD (i + 1) defaultPeriod).PeriodPriority →
        resolveAt l i = currentWins l i) ∧
    validInput [pA5, pB5] ∧
    pA5.PeriodPriority = pB5.PeriodPriority ∧
    ProcessPeriods [pA5, pB5] [pA5, { pB5 with PeriodStart := 11 }] := by
  refine ⟨fun l i h => ?_, fun l i h => ?_, by decide, by decide,
    ⟨1, by decide, by decide⟩⟩
  · simp only [resolveAt]
    rw [if_pos h]
  · simp only [resolveAt]
    rw [if_neg (by omega)]

/-- Claim C5 witness: on the scenario input the step indeed resolves
through the current-wins branch. -/
theorem claim5_tie_current_wins_witness :
    resolveAt [pA5, pB5] 0 = currentWins [pA5, pB5] 0 ∧
    ProcessPeriods [pA5, pB5] [pA5, { pB5 with PeriodStart := 11 }] :=
  ⟨claim5_tie_current_wins.2.1 [pA5, pB5] 0 (by decide),
    claim5_tie_current_wins.2.2.2.2⟩

/-! ## Claim C2: priority dominance -/

def pA2c : Period :=
  { ID := 1, PeriodStart := 0, PeriodEnd := 5, Price := 10, ProdNum := 7, PeriodPriority := 1 }

def pB2c : Period :=
  { ID := 2, PeriodStart := 5, PeriodEnd := 10, Price := 20, ProdNum := 7, PeriodPriority := 2 }

/-- Claim C2 counterexample: the claim says every day in the overlap
of a stronger A and a weaker same-product B is assigned to A and never
to a B-derived period.  On the valid input `[pA2c, pB2c]` the
intervals overlap in exactly day 5 (A ends the day B starts); the
strict overlap test does not fire, B survives unchanged, and day 5 —
a day in the overlap — is covered by the B-derived output period. -/
theorem claim2_counterexample :
    validInput [pA2c, pB2c] ∧
    pA2c.ProdNum = pB2c.ProdNum ∧
    pA2c.PeriodPriority < pB2c.PeriodPriority ∧
    coversDay pA2c 5 ∧ coversDay pB2c 5 ∧
    ProcessPeriods [pA2c, pB2c] [pA2c, pB2c] ∧
    pB2c ∈ ([pA2c, pB2c] : List Period) ∧
    pB2c.ID = pB2c.ID ∧ coversDay pB2c 5 :=
  ⟨by decide, by decide, by decide, by decide, by decide,
    ⟨0, by decide, by decide⟩, by decide, rfl, by decide⟩

/-- Claim C2 (amended): for an input consisting of exactly the two
same-product periods A (stronger, distinct identifier) and B whose
intervals overlap in more than a shared endpoint day, every day of the
overlap lies in A's interval and is covered by no B-derived output
period. -/
theorem claim2_amended (A B : Period) (l out : List Period)
    (hprod : A.ProdNum = B.ProdNum) (hid : A.ID ≠ B.ID)
    (hpri : A.PeriodPriority < B.PeriodPriority)
    (hvA : A.PeriodStart ≤ A.PeriodEnd) (_hvB : B.PeriodStart ≤ B.PeriodEnd)
    (hov1 : B.PeriodStart ≤ A.PeriodEnd) (hov2 : A.PeriodStart ≤ B.PeriodEnd)
    (hnb1 : A.PeriodEnd ≠ B.PeriodStart) (hnb2 : B.PeriodEnd ≠ A.PeriodStart)
    (hl : l = [A, B] ∨ l = [B, A]) (hout : ProcessPeriods l out) :
    ∀ d : Int, coversDay A d → coversDay B d →
      coversDay A d ∧ ∀ p ∈ out, p.ID = B.ID → ¬ coversDay p d := by
  intro d hdA hdB
  refine ⟨hdA, fun p hp hpid => ?_⟩
  unfold coversDay at hdA hdB
  rcases le_or_lt A.PeriodStart B.PeriodStart with hAs | hAs
  · have hAB : leKey A B := by rw [leKey_iff]; omega
    have hBA : ¬ leKey B A := by rw [leKey_iff]; omega
    have hovs : B.PeriodStart < A.PeriodEnd := by omega
    rcases le_or_lt B.PeriodEnd A.PeriodEnd with hBe | hBe
    · have hpp := pp_pair_delete l hAB hBA hovs (by omega) hBe hl
      have hq := processPeriods_unique hout hpp
      subst hq
      simp only [List.mem_singleton] at hp
      subst hp
      exact absurd hpid hid
    · have hpp := pp_pair_trim_next l hAB hBA hvA hovs (by omega) (by omega) hl
      have hq := processPeriods_unique hout hpp
      subst hq
      simp only [List.mem_cons, List.mem_singleton, List.not_mem_nil, or_false] at hp
      rcases hp with hp | hp
      · subst hp
        exact absurd hpid hid
      · subst hp
        intro hc
        unfold coversDay at hc
        dsimp only at hc
        omega
  · have hovs : A.PeriodStart < B.PeriodEnd := by omega
    have hl2 : l = [B, A] ∨ l = [A, B] := hl.symm
    rcases lt_or_le A.PeriodEnd B.PeriodEnd with hAe | hAe
    · have hpp := pp_pair_split l hprod.symm hAs hvA hovs hpri hAe hl2
      have hq := processPeriods_unique hout hpp
      subst hq
      simp only [List.mem_cons, List.mem_singleton, List.not_mem_nil, or_false] at hp
      rcases hp with hp | hp | hp
      · subst hp
        intro hc
        unfold coversDay at hc
        dsimp only at hc
        omega
      · subst hp
        exact absurd hpid hid
      · subst hp
        intro hc
        unfold coversDay at hc
        dsimp only at hc
        omega
    · have hpp := pp_pair_trim_current l hprod.symm hAs hovs hpri (by omega) hl2
      have hq := processPeriods_unique hout hpp
      subst hq
      simp only [List.mem_cons, List.mem_singleton, List.not_mem_nil, or_false] at hp
      rcases hp with hp | hp
      · subst hp
        intro hc
        unfold coversDay at hc
        dsimp only at hc
        omega
      · subst hp
        exact absurd hpid hid

def pA2w : Period :=
  { ID := 1, PeriodStart := 0, PeriodEnd := 10, Price := 10, ProdNum := 7, PeriodPriority := 1 }

def pB2w : Period :=
  { ID := 2, PeriodStart := 5, PeriodEnd := 20, Price := 20, ProdNum := 7, PeriodPriority := 2 }

/-- Claim C2 witness: concrete run with A = days 0..10 (priority 1)
and B = days 5..20 (priority 2); day 7 of the overlap lies in A and in
no B-derived output period. -/
theorem claim2_amended_witness :
    coversDay pA2w 7 ∧ ¬ coversDay { pB2w with PeriodStart := 11 } 7 := by
  have h := claim2_amended pA2w pB2w [pA2w, pB2w]
    [pA2w, { pB2w with PeriodStart := 11 }] (by decide) (by decide) (by decide)
    (by decide) (by decide) (by decide) (by decide) (by decide) (by decide)
    (Or.inl rfl) ⟨1, by decide, by decide⟩ 7 (by decide) (by decide)
  exact ⟨h.1, h.2 { pB2w with PeriodStart := 11 } (by decide) (by decide)⟩
